import Mathlib

/-!
Verification development for the Spaggiari circulars scraper
(`SpaggiariCircularsParser`).  The Go source is shallowly embedded:

* the Extractor (`parseCirculars`, `findNodeWithContext`, the
  `time.Parse("02/01/2006", _)` date format and `strconv.ParseUint`)
  is modelled over an explicit tree-of-nodes abstraction of the
  goquery selections the code works on;
* the Reconciler (the diff step of `deleteRemovedCirculars`: sort both
  identifier collections descending, binary search via `sort.Search`)
  is modelled with an explicit fuel-indexed bisection identical to the
  Go standard library loop; an out-of-range slice index is modelled as
  `Option.none` (a Go runtime panic);
* the Sync Engine (`insertCirculars` and the delete phase of
  `deleteRemovedCirculars`) is modelled as explicit state passing over
  association-list tables, with a failure oracle naming which SQL
  statement executions fail;
* the `main` loop glue is modelled as a per-cycle outcome function.
-/

namespace Spaggiari

/-- Calendar date at day granularity (the granularity used by the program:
`time.Parse("02/01/2006", s)` and `Format("2006-01-02")`). -/
structure YDate where
  year : Nat
  month : Nat
  day : Nat
deriving DecidableEq, Repr

/-- The `attachment` record of the Go source. -/
structure attachment where
  Id : Nat
  Title : String
deriving DecidableEq, Repr

/-- The `circular` record of the Go source (dates at day granularity). -/
structure circular where
  Id : Nat
  Title : String
  Category : String
  PublishedDate : YDate
  ValidUntilDate : YDate
  Attachments : List attachment
deriving DecidableEq, Repr

/-! ### Go standard-library helpers used by the extractor -/

/-- Prefix test on characters (`List.isPrefixOf`), written out. -/
def charsPre : List Char → List Char → Bool
  | [], _ => true
  | _ :: _, [] => false
  | a :: asr, b :: bs => a == b && charsPre asr bs

/-- Substring test on character lists: does the second list occur as a
contiguous run of the first?  (`strings.Contains` semantics.) -/
def charsContain (hay sub : List Char) : Bool :=
  if charsPre sub hay then true
  else
    match hay with
    | [] => false
    | _ :: t => charsContain t sub

/-- Substring test `strings.Contains hay sub`. -/
def strContains (hay sub : String) : Bool :=
  charsContain hay.toList sub.toList

/-- Model of `strconv.ParseUint s 10 64`: digits only, no sign, value must fit in
64 bits (Go reports an out-of-range error otherwise, which every caller
in this program treats as a parse failure). -/
def parseUint64 (s : String) : Option Nat :=
  if s.isEmpty then none
  else if s.toList.all (fun c => c.isDigit) then
    let n := s.toList.foldl (fun acc c => acc * 10 + (c.toNat - 48)) 0
    if n < 2 ^ 64 then some n else none
  else none

/-- Gregorian leap-year rule (as in Go `time`). -/
def isLeap (y : Nat) : Bool :=
  (y % 4 == 0 && y % 100 != 0) || y % 400 == 0

/-- Number of days of month `m` in year `y` (as in Go `time`). -/
def daysInMonth (y m : Nat) : Nat :=
  if m == 2 then (if isLeap y then 29 else 28)
  else if m == 4 || m == 6 || m == 9 || m == 11 then 30
  else 31

/-- Numeric value of a two-digit character pair. -/
def twoDigits (a b : Char) : Nat :=
  (a.toNat - 48) * 10 + (b.toNat - 48)

/-- Model of `time.Parse("02/01/2006", s)`: exactly two day digits, a slash, two
month digits, a slash, four year digits, nothing else; Go then checks
the month is in 1..12 and the day is in range for that month of that
year, and rejects the string otherwise. -/
def goParseDate (s : String) : Option YDate :=
  match s.toList with
  | [d1, d2, c1, m1, m2, c2, y1, y2, y3, y4] =>
    if c1 == '/' && c2 == '/'
        && [d1, d2, m1, m2, y1, y2, y3, y4].all (fun c => c.isDigit) then
      let dd := twoDigits d1 d2
      let mm := twoDigits m1 m2
      let yy := twoDigits y1 y2 * 100 + twoDigits y3 y4
      if 1 ≤ mm && mm ≤ 12 && 1 ≤ dd && dd ≤ daysInMonth yy mm then
        some ⟨yy, mm, dd⟩
      else none
    else none
  | _ => none

/-! ### The node abstraction for `findNodeWithContext`

A `*html.Node` as used by the scan carries its text `Data`, its
`PrevSibling` pointer and its `FirstChild` pointer; either pointer may
be nil (`Option.none`). -/

/-- One `*html.Node` as seen by `findNodeWithContext`. -/
inductive HNode where
  | node (data : String) (prev : Option HNode) (firstChild : Option HNode)

/-- The `Data` field. -/
def HNode.data : HNode → String
  | .node d _ _ => d

/-- The `PrevSibling` pointer. -/
def HNode.prev : HNode → Option HNode
  | .node _ p _ => p

/-- The `FirstChild` pointer. -/
def HNode.firstChild : HNode → Option HNode
  | .node _ _ c => c

/-- Outcome of one `findNodeWithContext` scan.  `panicNilPrev` is the
Go nil-pointer dereference of `n.PrevSibling.Data` when a scanned node
has no previous sibling. -/
inductive FindRes where
  | panicNilPrev
  | notFound
  | found (firstChild : Option HNode)

/-- Model of `findNodeWithContext context s`: return the `FirstChild` of the first
node whose `PrevSibling.Data` contains `context`; dereferencing a nil
`PrevSibling` is a runtime panic. -/
def findNodeWithContext (context : String) : List HNode → FindRes
  | [] => .notFound
  | n :: rest =>
    match n.prev with
    | none => .panicNilPrev
    | some p =>
      if strContains p.data context then .found n.firstChild
      else findNodeWithContext context rest

/-! ### One `tr.row-result` row, as goquery hands it to the loop body -/

/-- One `.link-to-file` element inside the information cell: its
optional `id_doc` attribute and its visible text. -/
structure AttachLink where
  idAttr : Option String
  text : String

/-- One `tr.row-result` row: the optional `id_doc` attribute of its
`.download-file` element, the text of the first `span` of the second
`td` (the title), the `span` nodes of that cell, and its
`.link-to-file` elements. -/
structure Row where
  idAttr : Option String
  firstSpanText : String
  spans : List HNode
  attachLinks : List AttachLink

/-- Outcome of the per-row loop body: a Go runtime panic, a skipped row
(with the log lines it emitted), or a parsed circular (with the warning
log lines its attachment loop emitted). -/
inductive RowOutcome where
  | panic
  | skipped (logs : List String)
  | parsed (c : circular) (logs : List String)
deriving DecidableEq

/-- Log line for an unparseable circular identifier. -/
def logIdParse : String := "ERROR: cant parse id to int. Skipping"

/-- Log line for a missing title. -/
def logNoTitle (id : Nat) : String :=
  "ERROR: Circular " ++ toString id ++ ", has no title field. Skipping"

/-- Log line for a missing category label. -/
def logNoCategory (id : Nat) : String :=
  "ERROR: Circular " ++ toString id ++ ", has no category field. Skipping"

/-- Log line for a missing published-date label. -/
def logNoPublished (id : Nat) : String :=
  "ERROR: Circular " ++ toString id ++ ", has no published date field. Skipping"

/-- Log line for an unparseable published date. -/
def logBadPublished (id : Nat) : String :=
  "ERROR: Circular " ++ toString id ++ ", cant parse published date. Skipping"

/-- Log line for a missing valid-until label. -/
def logNoValidUntil (id : Nat) : String :=
  "ERROR: Circular " ++ toString id ++ ", has no valid until field. Skipping"

/-- Log line for an unparseable valid-until date. -/
def logBadValidUntil (id : Nat) : String :=
  "ERROR: Circular " ++ toString id ++ ", cant parse valid until date. Skipping"

/-- Warning line for an unparseable attachment identifier. -/
def logBadAttach (id : Nat) : String :=
  "WARNING: cant parse circular(" ++ toString id ++ ") attachment. Skipping attachment"

/-- The attachment loop of the row body: elements without an `id_doc`
attribute are passed over silently, an unparseable `id_doc` skips just
that attachment with a warning, otherwise the attachment is collected
with the element text as title. -/
def parseAttachments (cid : Nat) : List AttachLink → List attachment × List String
  | [] => ([], [])
  | l :: rest =>
    let r := parseAttachments cid rest
    match l.idAttr with
    | none => r
    | some s =>
      match parseUint64 s with
      | none => (r.1, logBadAttach cid :: r.2)
      | some i => (⟨i, l.text⟩ :: r.1, r.2)

/-- The body of the `doc.Find("tr.row-result").Each` loop, in source
order: missing `id_doc` returns silently; an unparseable identifier,
an empty title, a missing label or an unparseable date skip the row
with a log line; reading the `Data` of a nil label-value node
(`publishedDateStr.Data`, `validUntilDateStr.Data`, and `category.Data`
at circular construction) is a runtime panic, as is the nil
`PrevSibling` dereference inside `findNodeWithContext`. -/
def parseRow (r : Row) : RowOutcome :=
  match r.idAttr with
  | none => .skipped []
  | some idStr =>
    match parseUint64 idStr with
    | none => .skipped [logIdParse]
    | some id =>
      if r.firstSpanText == "" then .skipped [logNoTitle id] else
      match findNodeWithContext "Categoria" r.spans with
      | .panicNilPrev => .panic
      | .notFound => .skipped [logNoCategory id]
      | .found category =>
        match findNodeWithContext "Pubblicato il" r.spans with
        | .panicNilPrev => .panic
        | .notFound => .skipped [logNoPublished id]
        | .found pubNode =>
          match pubNode with
          | none => .panic
          | some pn =>
            match goParseDate pn.data with
            | none => .skipped [logBadPublished id]
            | some publishedDate =>
              match findNodeWithContext "Valido fino" r.spans with
              | .panicNilPrev => .panic
              | .notFound => .skipped [logNoValidUntil id]
              | .found vNode =>
                match vNode with
                | none => .panic
                | some vn =>
                  match goParseDate vn.data with
                  | none => .skipped [logBadValidUntil id]
                  | some validUntilDate =>
                    let ar := parseAttachments id r.attachLinks
                    match category with
                    | none => .panic
                    | some catNode =>
                      .parsed ⟨id, r.firstSpanText, catNode.data,
                               publishedDate, validUntilDate, ar.1⟩ ar.2

/-- The circular a row contributes to the result slice, if any. -/
def rowCircular (r : Row) : Option circular :=
  match parseRow r with
  | .parsed c _ => some c
  | _ => none

/-- The log lines a row emits (none on the panic path: the process
dies before logging anything further). -/
def rowLogs (r : Row) : List String :=
  match parseRow r with
  | .parsed _ lg => lg
  | .skipped lg => lg
  | .panic => []

/-- Model of `parseCirculars` over the rows of the corpus: the `Each` loop in
row order.  A panic anywhere aborts the whole pass (the `error`
outcome); otherwise the surviving circulars are returned in row order
together with the concatenated log lines. -/
def parseCirculars : List Row → Except Unit (List circular × List String)
  | [] => .ok ([], [])
  | r :: rest =>
    match parseRow r with
    | .panic => .error ()
    | .skipped lg =>
      match parseCirculars rest with
      | .error e => .error e
      | .ok p => .ok (p.1, lg ++ p.2)
    | .parsed c lg =>
      match parseCirculars rest with
      | .error e => .error e
      | .ok p => .ok (c :: p.1, lg ++ p.2)

/-! ### Reconciler: the diff step of `deleteRemovedCirculars`

The Go code sorts both identifier slices descending with
`sort.Slice(s, fun i j => s[i] > s[j])`, then for each persisted id
runs `sort.Search(len(sorted), fun i => sorted[i] <= id)` and compares
`sorted[idx] != id` — indexing *without* a bounds check, so
`idx = len(sorted)` is a runtime panic (index out of range). -/

/-- Descending sort of an identifier slice (`sort.Slice` with a
greater-than comparator; equal naturals are indistinguishable, so any
correct sort models it). -/
def sortDesc (l : List Nat) : List Nat :=
  List.insertionSort (fun a b => b ≤ a) l

/-- The loop of Go `sort.Search`: bisect `[i, j)` keeping the invariant
that everything below `i` is false and everything from `j` on is true.
The fuel argument only bounds the iteration count; `j - i ≤ fuel`
suffices, and the top-level call passes `fuel = n`. -/
def goSearchAux (f : Nat → Bool) : Nat → Nat → Nat → Nat
  | 0, i, _ => i
  | fuel + 1, i, j =>
    if i < j then
      if f ((i + j) / 2) then goSearchAux f fuel i ((i + j) / 2)
      else goSearchAux f fuel ((i + j) / 2 + 1) j
    else i

/-- Model of `sort.Search n f`. -/
def goSearch (n : Nat) (f : Nat → Bool) : Nat :=
  goSearchAux f n 0 n

/-- One membership probe of the diff step: binary-search the descending
slice `s` for the first entry `≤ p`, then read `s[idx]` with no bounds
check.  `none` models the index-out-of-range panic at `idx = s.length`;
`some b` says whether `s[idx] == p`. -/
def searchMember (s : List Nat) (p : Nat) : Option Bool :=
  match s[goSearch s.length (fun i => decide (s.getD i 0 ≤ p))]? with
  | some v => some (v == p)
  | none => none

/-- The diff loop: for each persisted id (in slice order) probe the
descending-sorted current ids and collect the ids whose probe found no
exact match.  Any out-of-range probe is the Go panic (`none`). -/
def diffLoop (s : List Nat) : List Nat → Option (List Nat)
  | [] => some []
  | p :: rest =>
    match searchMember s p, diffLoop s rest with
    | some b, some l => some (if b then l else p :: l)
    | _, _ => none

/-- The diff step: sort the current identifier slice descending, then
run the probe loop over the persisted identifier slice. -/
def diffIds (parsed db : List Nat) : Option (List Nat) :=
  diffLoop (sortDesc parsed) db

/-- The circular-identifier slice the delete phase builds from the
parsed circulars (`parsedCircId`, in parse order before sorting). -/
def parsedCircIds (cs : List circular) : List Nat :=
  cs.map (fun c => c.Id)

/-- The attachment-identifier slice the delete phase builds
(`parsedAttachId`, in parse order before sorting). -/
def parsedAttachIds (cs : List circular) : List Nat :=
  cs.flatMap (fun c => c.Attachments.map (fun a => a.Id))

/-- The Reconciler proper: from the parsed circulars and the two
persisted identifier slices, the removal candidates of the circular
domain and of the attachment domain (`idsCircToRemove`,
`idsAttachToRemove`); `none` is the runtime panic of an out-of-range
probe in either domain. -/
def removalCandidates (cs : List circular) (dbCirc dbAtt : List Nat) :
    Option (List Nat × List Nat) :=
  match diffIds (parsedCircIds cs) dbCirc, diffIds (parsedAttachIds cs) dbAtt with
  | some c, some a => some (c, a)
  | _, _ => none

/-! ### Sync Engine: the persisted tables and the SQL statements

The store is modelled as two keyed association-list tables.  Each
`tx.Exec` is one statement execution; a failure oracle `fails`
(indexed by execution order within the transaction) says which
executions return an error, modelling constraint violations or
connection loss on that statement. -/

/-- One row of the `circolare` table (besides its key `id`). -/
structure CircRow where
  titolo : String
  categoria : String
  data : YDate
  valida_fino : YDate
  aggiunta_il : String
deriving DecidableEq, Repr

/-- One row of the `circolare_allegato` table (besides its key
`id_allegato`). -/
structure AttRow where
  titolo : String
  id_circolare : Nat
deriving DecidableEq, Repr

/-- The two tables of the persisted schema, keyed association lists. -/
structure DBState where
  circ : List (Nat × CircRow)
  att : List (Nat × AttRow)
deriving DecidableEq, Repr

/-- Update the row stored under a key, leaving other keys alone. -/
def updateKey {α : Type} (id : Nat) (f : α → α) (t : List (Nat × α)) :
    List (Nat × α) :=
  t.map (fun e => if e.1 = id then (e.1, f e.2) else e)

/-- The row a fresh `INSERT` writes for a circular (`aggiunta_il` is
the insertion timestamp `now`). -/
def circRowOf (c : circular) (now : String) : CircRow :=
  ⟨c.Title, c.Category, c.PublishedDate, c.ValidUntilDate, now⟩

/-- The `ON DUPLICATE KEY UPDATE` clause of the circular upsert: only
`titolo`, `categoria`, `data`, `valida_fino` change; `aggiunta_il`
keeps its value. -/
def circMutate (c : circular) (r : CircRow) : CircRow :=
  { r with titolo := c.Title, categoria := c.Category,
           data := c.PublishedDate, valida_fino := c.ValidUntilDate }

/-- One circular statement: `INSERT ... ON DUPLICATE KEY UPDATE` when
`upsert`, `INSERT IGNORE` otherwise. -/
def circStmt (upsert : Bool) (c : circular) (now : String)
    (t : List (Nat × CircRow)) : List (Nat × CircRow) :=
  match t.lookup c.Id with
  | some _ => if upsert then updateKey c.Id (circMutate c) t else t
  | none => t ++ [(c.Id, circRowOf c now)]

/-- The row a fresh `INSERT` writes for an attachment of circular
`cid`. -/
def attRowOf (a : attachment) (cid : Nat) : AttRow :=
  ⟨a.Title, cid⟩

/-- The `ON DUPLICATE KEY UPDATE` clause of the attachment upsert:
only `titolo` changes; `id_circolare` keeps its value. -/
def attMutate (a : attachment) (r : AttRow) : AttRow :=
  { r with titolo := a.Title }

/-- One attachment statement: upsert or `INSERT IGNORE`. -/
def attStmt (upsert : Bool) (a : attachment) (cid : Nat)
    (t : List (Nat × AttRow)) : List (Nat × AttRow) :=
  match t.lookup a.Id with
  | some _ => if upsert then updateKey a.Id (attMutate a) t else t
  | none => t ++ [(a.Id, attRowOf a cid)]

/-- The number of circulars `main` passes as `numToUpdate`
(`insertCirculars(circulars, 25, connectionString)`). -/
def mainNumToUpdate : Nat := 25

/-- The inner attachment loop of `insertCirculars`: one statement per
attachment, failing the transaction on the first statement error. -/
def attLoop (fails : Nat → Bool) (upsert : Bool) (cid : Nat) :
    List attachment → Nat → DBState → Option (DBState × Nat)
  | [], k, st => some (st, k)
  | a :: rest, k, st =>
    if fails k then none
    else attLoop fails upsert cid rest (k + 1)
      { st with att := attStmt upsert a cid st.att }

/-- The main loop of `insertCirculars`: circular `idx` gets the upsert
statements exactly when `idx < numToUpdate`, then its attachments;
the first statement error aborts the transaction. -/
def insertLoop (fails : Nat → Bool) (numToUpdate : Nat) (now : String) :
    Nat → List circular → Nat → DBState → Option (DBState × Nat)
  | _, [], k, st => some (st, k)
  | idx, c :: rest, k, st =>
    if fails k then none
    else
      (attLoop fails (decide (idx < numToUpdate)) c.Id c.Attachments (k + 1)
        { st with circ := circStmt (decide (idx < numToUpdate)) c now st.circ }).bind
        (fun r => insertLoop fails numToUpdate now (idx + 1) rest r.2 r.1)

/-- Model of `insertCirculars`: run the write transaction.  On any statement
error the function returns the error without committing, so the store
keeps its previous contents (the open transaction dies with the
connection); the final oracle index is the `tx.Commit` call.  The
`Bool` component is the returned error. -/
def insertCirculars (cs : List circular) (numToUpdate : Nat) (now : String)
    (fails : Nat → Bool) (db : DBState) : DBState × Bool :=
  match insertLoop fails numToUpdate now 0 cs 0 db with
  | none => (db, true)
  | some (st, k) => if fails k then (db, true) else (st, false)

/-- The row stored for a circular after its statement runs, as a
function of the previously stored row: an upsert on a present key
rewrites exactly the four mutable columns, an `INSERT IGNORE` on a
present key changes nothing, and an absent key is inserted fresh. -/
def circAfter (upsert : Bool) (c : circular) (now : String)
    (old : Option CircRow) : CircRow :=
  match old with
  | some r => if upsert then circMutate c r else r
  | none => circRowOf c now

/-- The row stored for an attachment after its statement runs: an
upsert on a present key rewrites exactly `titolo`, an `INSERT IGNORE`
on a present key changes nothing, and an absent key is inserted
fresh. -/
def attAfter (upsert : Bool) (a : attachment) (cid : Nat)
    (old : Option AttRow) : AttRow :=
  match old with
  | some r => if upsert then attMutate a r else r
  | none => attRowOf a cid

/-- The attachment statements of one circular, with no failures. -/
def attsApply (upsert : Bool) (cid : Nat) :
    List attachment → List (Nat × AttRow) → List (Nat × AttRow)
  | [], t => t
  | a :: rest, t => attsApply upsert cid rest (attStmt upsert a cid t)

/-- The whole write transaction with no failures, starting at circular
index `idx`: the failure-free skeleton of `insertLoop`. -/
def insertAllFrom (n : Nat) (now : String) :
    Nat → List circular → DBState → DBState
  | _, [], st => st
  | idx, c :: rest, st =>
    let st1 : DBState :=
      { st with circ := circStmt (decide (idx < n)) c now st.circ }
    let st2 : DBState :=
      { st1 with att := attsApply (decide (idx < n)) c.Id c.Attachments st1.att }
    insertAllFrom n now (idx + 1) rest st2

/-! ### The delete phase of `deleteRemovedCirculars` -/

/-- Failure oracle for one run of `deleteRemovedCirculars`:
`circQueryFails` / `attQueryFails` cover the two `tx.Query` calls and
their row scans (the code reacts to either with `log.Fatal`),
`delFails` names which `DELETE` executions error (indexed in execution
order), `commitFails` the final `tx.Commit`. -/
structure DelOracle where
  circQueryFails : Bool
  attQueryFails : Bool
  delFails : Nat → Bool
  commitFails : Bool

/-- Outcome of `deleteRemovedCirculars`: `fatal` is a process
termination (`log.Fatal` on a query/scan error, or the runtime panic
of an out-of-range probe in the diff step); `rolledBack` is a returned
error with the transaction rolled back; `ok` carries the committed
store and the two counts the function returns. -/
inductive DelOutcome where
  | fatal
  | rolledBack
  | ok (st : DBState) (removedCirculars removedAttachments : Nat)
deriving DecidableEq

/-- One `DELETE` statement of the delete phase. -/
inductive DelStmt where
  | att (id : Nat)
  | circ (id : Nat)
deriving DecidableEq, Repr

/-- The delete statements in execution order: all attachment deletes
first (`idsAttachToRemove`), then all circular deletes
(`idsCircToRemove`). -/
def delStmtsOf (idsAtt idsCirc : List Nat) : List DelStmt :=
  idsAtt.map DelStmt.att ++ idsCirc.map DelStmt.circ

/-- Execute the delete statements: the error result of each `tx.Exec`
is discarded by the code, so a failing statement simply has no effect
and execution continues with the next statement. -/
def applyDeletes (fails : Nat → Bool) : Nat → List DelStmt → DBState → DBState
  | _, [], st => st
  | k, d :: rest, st =>
    if fails k then applyDeletes fails (k + 1) rest st
    else
      let st1 : DBState :=
        match d with
        | .att id => { st with att := st.att.filter (fun e => !(e.1 == id)) }
        | .circ id => { st with circ := st.circ.filter (fun e => !(e.1 == id)) }
      applyDeletes fails (k + 1) rest st1

/-- The persisted circular identifiers as the delete phase reads them
(`SELECT id FROM circolare ORDER BY id DESC`). -/
def dbCircIds (db : DBState) : List Nat :=
  sortDesc (db.circ.map Prod.fst)

/-- The persisted attachment identifiers as the delete phase reads
them (`SELECT id_allegato id FROM circolare_allegato ORDER BY id
DESC`). -/
def dbAttIds (db : DBState) : List Nat :=
  sortDesc (db.att.map Prod.fst)

/-- The delete statements one cleanup run would execute, in execution
order; `none` is the diff-step runtime panic. -/
def deleteTrace (cs : List circular) (db : DBState) : Option (List DelStmt) :=
  match removalCandidates cs (dbCircIds db) (dbAttIds db) with
  | none => none
  | some (idsCirc, idsAtt) => some (delStmtsOf idsAtt idsCirc)

/-- Model of `deleteRemovedCirculars`: read both persisted id slices (a query
or scan error is `log.Fatal`), diff them against the parsed ids (an
out-of-range probe is a panic), execute the deletes (statement errors
ignored), commit, and report the lengths of the two removal-candidate
slices. -/
def deleteRemovedCirculars (cs : List circular) (o : DelOracle)
    (db : DBState) : DelOutcome :=
  if o.circQueryFails then .fatal
  else if o.attQueryFails then .fatal
  else
    match removalCandidates cs (dbCircIds db) (dbAttIds db) with
    | none => .fatal
    | some (idsCirc, idsAtt) =>
      let st := applyDeletes o.delFails 0 (delStmtsOf idsAtt idsCirc) db
      if o.commitFails then .rolledBack
      else .ok st idsCirc.length idsAtt.length

/-! ### The `main` loop glue -/

/-- What one loop iteration does after it: continue at the next tick,
or terminate the process. -/
inductive CycleOutcome where
  | continueLoop
  | exitProcess
deriving DecidableEq

/-- One iteration of the `main` loop after startup: a fetch error, a
structural markup-parse error, or an `insertCirculars` error is logged
and the loop continues; a runtime panic inside the row loop kills the
process (nothing recovers it); when a cleanup is due, a `fatal`
outcome of `deleteRemovedCirculars` kills the process and any other
outcome continues the loop. -/
def cycleStep (fetchErr structErr : Bool) (rows : List Row)
    (insFails : Nat → Bool) (now : String) (db : DBState)
    (cleanupDue : Bool) (o : DelOracle) : CycleOutcome :=
  if fetchErr then .continueLoop
  else if structErr then .continueLoop
  else
    match parseCirculars rows with
    | .error _ => .exitProcess
    | .ok p =>
      let ins := insertCirculars p.1 mainNumToUpdate now insFails db
      if ins.2 then .continueLoop
      else if cleanupDue then
        match deleteRemovedCirculars p.1 o ins.1 with
        | .fatal => .exitProcess
        | _ => .continueLoop
      else .continueLoop

/-! ### Fetcher: `getCirculars`

The upstream is modelled as the sequence of responses it would serve
to the strictly sequential requests; the loop consumes one response
per request.  Running out of responses models a request or decode
failure, which aborts the whole fetch (`none`). -/

/-- The decoded response message (`moreCircularsMsg` in the source). -/
structure moreCircularsMsg where
  Status : Bool
  Data : Int
  Err : String
  Errdbg : String
  Htm : String
  Cnt : Int
deriving DecidableEq, Repr

/-- Ordered concatenation of the `Htm` fragments of a response list. -/
def concatHtm (ms : List moreCircularsMsg) : String :=
  ms.foldr (fun m s => m.Htm ++ s) ""

/-- The fetch loop: issue the request at offset `count` (`ls=count`),
accumulate the fragment, stop when the reported remaining count is
`≤ 0`, otherwise repeat at `count + 100`.  Returns the offsets
requested, in request order, and the accumulated fragments. -/
def getLoop (count : Nat) (acc : String) :
    List moreCircularsMsg → Option (List Nat × String)
  | [] => none
  | m :: rest =>
    let acc1 := acc ++ m.Htm
    if m.Cnt ≤ 0 then some ([count], acc1)
    else
      match getLoop (count + 100) acc1 rest with
      | none => none
      | some r => some (count :: r.1, r.2)

/-- Model of `getCirculars`: run the fetch loop from offset 0 and wrap the
accumulated fragments in the minimal table container. -/
def getCirculars (pages : List moreCircularsMsg) :
    Option (List Nat × String) :=
  match getLoop 0 "" pages with
  | none => none
  | some r =>
    some (r.1, "<html><body><table>" ++ r.2 ++ "</table></body></html>")

/-! ### Concrete fixtures used by witnesses and counterexamples -/

/-- A span node whose previous sibling carries a label text and whose
first child carries a value text — the shape the label-to-value scan
expects. -/
def spanOf (label value : String) : HNode :=
  .node "" (some (.node label none none)) (some (.node value none none))

/-- Span nodes of a fully well-formed information cell. -/
def goodSpans : List HNode :=
  [spanOf "Categoria" "Avvisi", spanOf "Pubblicato il" "07/09/2024",
   spanOf "Valido fino" "31/12/2024"]

/-- A fully well-formed result row. -/
def goodRow : Row := ⟨some "123", "Esami", goodSpans, []⟩

/-- The circular `goodRow` parses to. -/
def goodCircular : circular :=
  ⟨123, "Esami", "Avvisi", ⟨2024, 9, 7⟩, ⟨2024, 12, 31⟩, []⟩

/-- A row whose information cell contains a span with no previous
sibling: the label scan dereferences the nil `PrevSibling`. -/
def noPrevRow : Row := ⟨some "7", "T", [.node "x" none none], []⟩

/-- A row where the node following the published-date label has no
child: the value read dereferences the nil `FirstChild`. -/
def noChildRow : Row :=
  ⟨some "8", "T",
   [spanOf "Categoria" "Avvisi",
    .node "" (some (.node "Pubblicato il" none none)) none], []⟩

/-- A row whose `.download-file` element has no `id_doc` attribute. -/
def noMarkerRow : Row := ⟨none, "T", goodSpans, []⟩

/-- A row whose published date reads `31/13/2024`. -/
def badDateRow : Row :=
  ⟨some "9", "T",
   [spanOf "Categoria" "Avvisi", spanOf "Pubblicato il" "31/13/2024",
    spanOf "Valido fino" "31/12/2024"], []⟩

/-- Two parsed circulars (ids 10 and 2, attachment ids 100 and 20)
used by the Reconciler witness. -/
def cs1 : List circular :=
  [⟨10, "t", "c", ⟨2024, 1, 1⟩, ⟨2024, 1, 2⟩, [⟨100, "a"⟩]⟩,
   ⟨2, "u", "c", ⟨2024, 1, 1⟩, ⟨2024, 1, 2⟩, [⟨20, "b"⟩]⟩]

/-- A circular used by the Sync Engine witness: id 1, one attachment
with id 10. -/
def cw : circular :=
  ⟨1, "new title", "new cat", ⟨2024, 9, 7⟩, ⟨2024, 12, 31⟩, [⟨10, "att title"⟩]⟩

/-- A store that already holds circular 1 and attachment 10, with
older field values and insertion timestamp. -/
def dbw : DBState :=
  ⟨[(1, ⟨"old title", "old cat", ⟨2020, 1, 1⟩, ⟨2020, 1, 2⟩, "old-ts"⟩)],
   [(10, ⟨"old att", 1⟩)]⟩

/-- Persisted row of circular 1 in the delete counterexample. -/
def rowC1 : CircRow := ⟨"a", "c", ⟨2024, 1, 1⟩, ⟨2024, 1, 2⟩, "t1"⟩

/-- Persisted row of circular 5 in the delete counterexample. -/
def rowC5 : CircRow := ⟨"b", "c", ⟨2023, 1, 1⟩, ⟨2023, 1, 2⟩, "t2"⟩

/-- Persisted row of circular 7 in the delete counterexample. -/
def rowC7 : CircRow := ⟨"d", "c", ⟨2022, 1, 1⟩, ⟨2022, 1, 2⟩, "t3"⟩

/-- Parsed circulars of the cleanup witness: circular 1 with
attachment 10 still present upstream. -/
def cs9 : List circular :=
  [⟨1, "t", "c", ⟨2024, 1, 1⟩, ⟨2024, 1, 2⟩, [⟨10, "a"⟩]⟩]

/-- A store holding circulars 1 and 5 and attachments 10 and 20, so
the cleanup must remove circular 5 and attachment 20. -/
def db9 : DBState :=
  ⟨[(1, ⟨"t", "c", ⟨2024, 1, 1⟩, ⟨2024, 1, 2⟩, "ts"⟩),
    (5, ⟨"u", "c", ⟨2023, 1, 1⟩, ⟨2023, 1, 2⟩, "ts"⟩)],
   [(10, ⟨"a", 1⟩), (20, ⟨"b", 5⟩)]⟩

/-! ## Theorems -/

/-- Helper: when no row of the corpus panics, the pass returns the
surviving circulars in row order and the concatenated diagnostics. -/
theorem parseCirculars_no_panic (rows : List Row)
    (h : ∀ r ∈ rows, parseRow r ≠ RowOutcome.panic) :
    parseCirculars rows = .ok (rows.filterMap rowCircular, rows.flatMap rowLogs) := by
  induction rows with
  | nil => rfl
  | cons r rest ih =>
    have hr : parseRow r ≠ RowOutcome.panic := h r (List.mem_cons_self r rest)
    have hrest := ih (fun x hx => h x (List.mem_cons_of_mem r hx))
    cases hpr : parseRow r with
    | panic => exact absurd hpr hr
    | skipped lg =>
      simp [parseCirculars, hpr, hrest, rowCircular, rowLogs]
    | parsed c lg =>
      simp [parseCirculars, hpr, hrest, rowCircular, rowLogs]

/-- C10: the label-to-value scan dereferences each span's previous
sibling unconditionally, and the value node's first child is
dereferenced on use; a row with a no-previous-sibling span, or with a
childless node after a label, makes the row loop panic, which aborts
the entire pass — even though the same corpus without the offending
row extracts fine. -/
theorem label_scan_panics_abort_pass :
    parseRow noPrevRow = RowOutcome.panic ∧
    parseRow noChildRow = RowOutcome.panic ∧
    parseCirculars [noPrevRow, goodRow] = .error () ∧
    parseCirculars [goodRow] = .ok ([goodCircular], []) :=
  ⟨rfl, rfl, rfl, rfl⟩

/-- C7 counterexample: a row lacking its identifier marker is skipped
with NO diagnostic logged (the code returns from the loop body without
logging), contradicting the claim that every such skip logs a
diagnostic. -/
theorem missing_marker_row_logs_nothing :
    parseRow noMarkerRow = RowOutcome.skipped [] ∧
    parseCirculars [noMarkerRow] = .ok ([], []) :=
  ⟨rfl, rfl⟩

/-- C7 (amended): provided no row makes the label scan panic, every
defective row (missing identifier marker, unparseable identifier,
empty title, missing label) produces no circular and does not abort
extraction; the output preserves the order of surviving rows and
carries the concatenated diagnostics — except that a row lacking its
identifier marker is skipped silently, with no diagnostic. -/
theorem extractor_skips_defective_rows (rows : List Row)
    (h : ∀ r ∈ rows, parseRow r ≠ RowOutcome.panic) :
    parseCirculars rows = .ok (rows.filterMap rowCircular, rows.flatMap rowLogs) ∧
    (∀ r : Row, r.idAttr = none →
      parseRow r = RowOutcome.skipped [] ∧ rowCircular r = none) ∧
    (∀ (r : Row) (s : String), r.idAttr = some s → parseUint64 s = none →
      parseRow r = RowOutcome.skipped [logIdParse]) ∧
    (∀ (r : Row) (s : String) (n : Nat), r.idAttr = some s →
      parseUint64 s = some n → r.firstSpanText = "" →
      parseRow r = RowOutcome.skipped [logNoTitle n]) ∧
    (∀ (r : Row) (s : String) (n : Nat), r.idAttr = some s →
      parseUint64 s = some n → (r.firstSpanText == "") = false →
      findNodeWithContext "Categoria" r.spans = .notFound →
      parseRow r = RowOutcome.skipped [logNoCategory n]) := by
  refine ⟨parseCirculars_no_panic rows h, ?_, ?_, ?_, ?_⟩
  · intro r h1
    constructor
    · simp [parseRow, h1]
    · simp [rowCircular, parseRow, h1]
  · intro r s h1 h2
    simp [parseRow, h1, h2]
  · intro r s n h1 h2 h3
    simp [parseRow, h1, h2, h3]
  · intro r s n h1 h2 h3 h4
    simp [parseRow, h1, h2, h3, h4]

/-- Witness for C7: a corpus with a marker-less row, a good row and a
bad-date row extracts exactly the good row's circular, with only the
bad-date diagnostic. -/
theorem extractor_skips_defective_rows_witness :
    parseCirculars [noMarkerRow, goodRow, badDateRow] =
      .ok ([goodCircular], [logBadPublished 9]) := by
  have h := extractor_skips_defective_rows [noMarkerRow, goodRow, badDateRow]
    (by decide)
  rw [h.1]
  rfl

/-- C8: the date fields parse in day/month/year order — `07/09/2024`
is the 7th of September 2024 — and a malformed date such as
`31/13/2024` is rejected, skipping the row that carries it. -/
theorem date_format_day_month_year :
    goParseDate "07/09/2024" = some ⟨2024, 9, 7⟩ ∧
    goParseDate "31/13/2024" = none ∧
    (∀ (r : Row) (s : String) (n : Nat) (cat : Option HNode) (pn : HNode),
      r.idAttr = some s → parseUint64 s = some n →
      (r.firstSpanText == "") = false →
      findNodeWithContext "Categoria" r.spans = .found cat →
      findNodeWithContext "Pubblicato il" r.spans = .found (some pn) →
      pn.data = "31/13/2024" →
      parseRow r = RowOutcome.skipped [logBadPublished n]) := by
  refine ⟨by decide, by decide, ?_⟩
  intro r s n cat pn h1 h2 h3 h4 h5 h6
  simp [parseRow, h1, h2, h3, h4, h5, h6,
        show goParseDate "31/13/2024" = none from by decide]

/-- Witness for C8: the bad-date fixture row is skipped with the
published-date diagnostic. -/
theorem date_format_day_month_year_witness :
    parseRow badDateRow = RowOutcome.skipped [logBadPublished 9] := by
  exact date_format_day_month_year.2.2 badDateRow "9" 9
    (some (.node "Avvisi" none none)) (.node "31/13/2024" none none)
    rfl rfl rfl rfl rfl rfl

/-- Helper: peeling the first offset off a 100-spaced offset list. -/
theorem offsetsShift (c k : Nat) :
    (List.range (k + 1)).map (fun i => c + 100 * i) =
      c :: (List.range k).map (fun i => c + 100 + 100 * i) := by
  rw [List.range_succ_eq_map]
  simp only [List.map_cons, List.map_map, Nat.mul_zero, Nat.add_zero]
  refine congrArg (List.cons c) (List.map_congr_left ?_)
  intro a _
  simp only [Function.comp_apply]
  omega

/-- Helper: the fetch loop, started at any offset, consumes exactly
the responses up to and including the first one reporting a remaining
count `≤ 0`, requests offsets advancing by 100, and accumulates the
fragments in request order. -/
theorem getLoop_spec :
    ∀ (pages : List moreCircularsMsg) (k : Nat) (hk : k < pages.length),
      (∀ m ∈ pages.take k, 0 < m.Cnt) →
      (pages.get ⟨k, hk⟩).Cnt ≤ 0 →
      ∀ (count : Nat) (acc : String),
        getLoop count acc pages =
          some ((List.range (k + 1)).map (fun i => count + 100 * i),
                acc ++ concatHtm (pages.take (k + 1))) := by
  intro pages
  induction pages with
  | nil => intro k hk; exact absurd hk (by simp)
  | cons m rest ih =>
    intro k hk hcont hstop count acc
    cases k with
    | zero =>
      have h0 : m.Cnt ≤ 0 := hstop
      rw [show List.range 1 = [0] from rfl]
      simp [getLoop, h0, concatHtm, String.append_empty]
    | succ k' =>
      have hm : 0 < m.Cnt := hcont m (by simp)
      have hnot : ¬ m.Cnt ≤ 0 := by omega
      have hk' : k' < rest.length := Nat.lt_of_succ_lt_succ hk
      have hcont' : ∀ x ∈ rest.take k', 0 < x.Cnt := by
        intro x hx
        exact hcont x (by simpa [List.take_cons] using List.mem_cons_of_mem m hx)
      have hstop' : (rest.get ⟨k', hk'⟩).Cnt ≤ 0 := hstop
      have hrec := ih k' hk' hcont' hstop' (count + 100) (acc ++ m.Htm)
      have hoffs :
          count :: (List.range (k' + 1)).map (fun i => count + 100 + 100 * i) =
            (List.range (k' + 1 + 1)).map (fun i => count + 100 * i) := by
        exact (offsetsShift count (k' + 1)).symm
      calc getLoop count acc (m :: rest)
          = some (count :: ((List.range (k' + 1)).map (fun i => count + 100 + 100 * i)),
              (acc ++ m.Htm) ++ concatHtm (rest.take (k' + 1))) := by
            simp [getLoop, hnot, hrec]
        _ = some ((List.range (k' + 1 + 1)).map (fun i => count + 100 * i),
              acc ++ concatHtm ((m :: rest).take (k' + 1 + 1))) := by
            rw [hoffs]
            rw [show (m :: rest).take (k' + 1 + 1) = m :: rest.take (k' + 1) from rfl]
            rw [show concatHtm (m :: rest.take (k' + 1)) =
              m.Htm ++ concatHtm (rest.take (k' + 1)) from rfl]
            rw [String.append_assoc]

/-- C6: the Fetcher requests pages strictly sequentially starting at
offset 0, advancing by 100 per repeat; it repeats exactly while the
reported remaining count is positive and stops at the first page whose
count is `≤ 0`; the corpus is the request-ordered concatenation of the
fragments wrapped in the minimal html/body/table container. -/
theorem fetcher_pagination (pages : List moreCircularsMsg) (k : Nat)
    (hk : k < pages.length)
    (hcont : ∀ m ∈ pages.take k, 0 < m.Cnt)
    (hstop : (pages.get ⟨k, hk⟩).Cnt ≤ 0) :
    getCirculars pages =
      some ((List.range (k + 1)).map (fun i => 100 * i),
        "<html><body><table>" ++ concatHtm (pages.take (k + 1))
          ++ "</table></body></html>") := by
  have h := getLoop_spec pages k hk hcont hstop 0 ""
  rw [getCirculars, h]
  rw [String.empty_append]
  refine congrArg _ (congrArg₂ _ ?_ rfl)
  exact List.map_congr_left (fun a _ => by omega)

/-- Witness for C6: two pages, the first reporting 100 more rows, the
second reporting none: exactly the offsets 0 and 100 are requested and
the corpus concatenates both fragments in order. -/
theorem fetcher_pagination_witness :
    getCirculars
        [⟨true, 0, "", "", "<tr>a</tr>", 100⟩,
         ⟨true, 0, "", "", "<tr>b</tr>", 0⟩] =
      some ([0, 100],
        "<html><body><table><tr>a</tr><tr>b</tr></table></body></html>") := by
  have h := fetcher_pagination
    [⟨true, 0, "", "", "<tr>a</tr>", 100⟩, ⟨true, 0, "", "", "<tr>b</tr>", 0⟩]
    1 (by decide) (by decide) (by decide)
  rw [h]
  rfl

/-! ### Reconciler lemmas -/

/-- Helper: the descending sort is a permutation of its input. -/
theorem sortDesc_mem (l : List Nat) (x : Nat) : x ∈ sortDesc l ↔ x ∈ l :=
  (List.perm_insertionSort _ l).mem_iff

/-- Helper: the descending sort is sorted by `≥`. -/
theorem sortDesc_sorted (l : List Nat) :
    (sortDesc l).Sorted (fun a b => b ≤ a) :=
  List.sorted_insertionSort _ l

/-- Helper: on a descending-sorted slice, the out-of-range default 0
makes position reads antitone everywhere. -/
theorem sorted_getD_anti {s : List Nat}
    (hs : s.Sorted (fun a b => b ≤ a)) {a b : Nat} (hab : a ≤ b) :
    s.getD b 0 ≤ s.getD a 0 := by
  by_cases hb : b < s.length
  · have ha : a < s.length := lt_of_le_of_lt hab hb
    rw [List.getD_eq_getElem?_getD, List.getD_eq_getElem?_getD,
        List.getElem?_eq_getElem hb, List.getElem?_eq_getElem ha]
    simp only [Option.getD_some]
    have := hs.rel_get_of_le (a := ⟨a, ha⟩) (b := ⟨b, hb⟩) hab
    simpa using this
  · rw [List.getD_eq_getElem?_getD (l := s) (n := b),
        List.getElem?_eq_none (le_of_not_lt hb)]
    exact Nat.zero_le _

/-- Helper: the bisection loop of `sort.Search` returns the least
index at which a monotone predicate holds, provided the predicate
holds at the right end and the fuel covers the interval. -/
theorem goSearchAux_spec (f : Nat → Bool)
    (hmono : ∀ a b, a ≤ b → f a = true → f b = true) :
    ∀ (fuel i j : Nat), i ≤ j → j - i ≤ fuel →
      (∀ k, k < i → f k = false) → f j = true →
      f (goSearchAux f fuel i j) = true ∧
      ∀ k, k < goSearchAux f fuel i j → f k = false := by
  intro fuel
  induction fuel with
  | zero =>
    intro i j hij hfuel hlow hj
    have hij' : i = j := by omega
    subst hij'
    exact ⟨hj, hlow⟩
  | succ fuel ih =>
    intro i j hij hfuel hlow hj
    by_cases hlt : i < j
    · rw [goSearchAux, if_pos hlt]
      by_cases hfm : f ((i + j) / 2) = true
      · rw [if_pos hfm]
        exact ih i ((i + j) / 2) (by omega) (by omega) hlow hfm
      · rw [if_neg hfm]
        have hfm' : f ((i + j) / 2) = false := by
          cases hv : f ((i + j) / 2) with
          | true => exact absurd hv hfm
          | false => rfl
        have hlow' : ∀ k, k < (i + j) / 2 + 1 → f k = false := by
          intro k hk
          cases hv : f k with
          | false => rfl
          | true =>
            have := hmono k ((i + j) / 2) (by omega) hv
            rw [this] at hfm'
            cases hfm'
        exact ih ((i + j) / 2 + 1) j (by omega) (by omega) hlow' hj
    · rw [goSearchAux, if_neg hlt]
      have hij' : i = j := by omega
      subst hij'
      exact ⟨hj, hlow⟩

/-- Helper: whenever some current identifier is `≤ p`, the membership
probe stays in bounds and answers exactly whether `p` is a current
identifier. -/
theorem searchMember_spec (parsed : List Nat) (p : Nat)
    (h : ∃ c ∈ parsed, c ≤ p) :
    searchMember (sortDesc parsed) p = some (decide (p ∈ parsed)) := by
  set s := sortDesc parsed with hsdef
  have hs : s.Sorted (fun a b => b ≤ a) := sortDesc_sorted parsed
  set f : Nat → Bool := fun i => decide (s.getD i 0 ≤ p) with hf
  have hmono : ∀ a b, a ≤ b → f a = true → f b = true := by
    intro a b hab hfa
    simp only [hf, decide_eq_true_eq] at hfa ⊢
    exact le_trans (sorted_getD_anti hs hab) hfa
  have hfn : f s.length = true := by
    simp only [hf, decide_eq_true_eq]
    rw [List.getD_eq_getElem?_getD, List.getElem?_eq_none (le_refl _)]
    exact Nat.zero_le _
  have hspec := goSearchAux_spec f hmono s.length 0 s.length (Nat.zero_le _)
    (by omega) (fun k hk => absurd hk (Nat.not_lt_zero k)) hfn
  obtain ⟨hfr, hlow⟩ := hspec
  obtain ⟨c, hc, hcp⟩ := h
  have hcs : c ∈ s := (sortDesc_mem parsed c).2 hc
  obtain ⟨jj, hjj, hgetjj⟩ := List.mem_iff_getElem.1 hcs
  have hfjj : f jj = true := by
    simp only [hf, decide_eq_true_eq]
    rw [List.getD_eq_getElem?_getD, List.getElem?_eq_getElem hjj]
    simpa [hgetjj] using hcp
  have hrjj : goSearchAux f s.length 0 s.length ≤ jj := by
    by_contra hcon
    have := hlow jj (by omega)
    rw [hfjj] at this
    cases this
  have hrlen : goSearchAux f s.length 0 s.length < s.length :=
    lt_of_le_of_lt hrjj hjj
  have hvle : s[goSearchAux f s.length 0 s.length] ≤ p := by
    have hval := hfr
    simp only [hf, decide_eq_true_eq] at hval
    rwa [List.getD_eq_getElem?_getD, List.getElem?_eq_getElem hrlen,
         Option.getD_some] at hval
  rw [searchMember, goSearch]
  rw [show (fun i => decide (s.getD i 0 ≤ p)) = f from rfl]
  rw [List.getElem?_eq_getElem hrlen]
  refine congrArg some ?_
  by_cases hp : p ∈ parsed
  · have hps : p ∈ s := (sortDesc_mem parsed p).2 hp
    obtain ⟨jp, hjp, hgetjp⟩ := List.mem_iff_getElem.1 hps
    have hfjp : f jp = true := by
      simp only [hf, decide_eq_true_eq]
      rw [List.getD_eq_getElem?_getD, List.getElem?_eq_getElem hjp]
      simp [hgetjp]
    have hrjp : goSearchAux f s.length 0 s.length ≤ jp := by
      by_contra hcon
      have := hlow jp (by omega)
      rw [hfjp] at this
      cases this
    have hge : p ≤ s[goSearchAux f s.length 0 s.length] := by
      have := hs.rel_get_of_le (a := ⟨_, hrlen⟩) (b := ⟨jp, hjp⟩) hrjp
      simpa [hgetjp] using this
    have heq : s[goSearchAux f s.length 0 s.length] = p :=
      le_antisymm hvle hge
    simp [heq, hp]
  · have hne : s[goSearchAux f s.length 0 s.length] ≠ p := by
      intro he
      exact hp ((sortDesc_mem parsed p).1 (he ▸ List.getElem_mem hrlen))
    simp [hne, hp]

/-- Helper: when every persisted identifier dominates some current
identifier, the probe loop never leaves bounds and collects exactly
the persisted identifiers absent from the current slice, in persisted
order. -/
theorem diffLoop_spec (parsed db : List Nat)
    (h : ∀ p ∈ db, ∃ c ∈ parsed, c ≤ p) :
    diffLoop (sortDesc parsed) db =
      some (db.filter (fun x => decide (x ∉ parsed))) := by
  induction db with
  | nil => rfl
  | cons p rest ih =>
    have hsm := searchMember_spec parsed p (h p (List.mem_cons_self p rest))
    have hrest := ih (fun x hx => h x (List.mem_cons_of_mem p hx))
    rw [diffLoop, hsm, hrest]
    by_cases hp : p ∈ parsed
    · simp [hp, List.filter_cons]
    · simp [hp, List.filter_cons]

/-- Helper: `diffIds` under the same domination hypothesis. -/
theorem diffIds_spec (parsed db : List Nat)
    (h : ∀ p ∈ db, ∃ c ∈ parsed, c ≤ p) :
    diffIds parsed db = some (db.filter (fun x => decide (x ∉ parsed))) :=
  diffLoop_spec parsed db h

/-- C1 (amended): provided every persisted identifier is at least some
current identifier (in each domain) — otherwise the probe panics, see
the counterexample — the Reconciler returns exactly the persisted
identifiers absent from the current extraction, independently for the
circular and the attachment domains; and re-running it on the
persisted sets with the delta applied returns empty removal sets. -/
theorem reconciler_diff_correct (cs : List circular) (dbCirc dbAtt : List Nat)
    (hc : ∀ p ∈ dbCirc, ∃ c ∈ parsedCircIds cs, c ≤ p)
    (ha : ∀ p ∈ dbAtt, ∃ c ∈ parsedAttachIds cs, c ≤ p) :
    removalCandidates cs dbCirc dbAtt =
      some (dbCirc.filter (fun x => decide (x ∉ parsedCircIds cs)),
            dbAtt.filter (fun x => decide (x ∉ parsedAttachIds cs))) ∧
    removalCandidates cs
        (dbCirc.filter (fun x => decide (x ∈ parsedCircIds cs)))
        (dbAtt.filter (fun x => decide (x ∈ parsedAttachIds cs))) =
      some ([], []) := by
  constructor
  · simp only [removalCandidates, diffIds_spec _ _ hc, diffIds_spec _ _ ha]
  · have h1 : ∀ p ∈ dbCirc.filter (fun x => decide (x ∈ parsedCircIds cs)),
        ∃ c ∈ parsedCircIds cs, c ≤ p := by
      intro p hp
      exact ⟨p, by simpa using (List.mem_filter.1 hp).2, le_refl p⟩
    have h2 : ∀ p ∈ dbAtt.filter (fun x => decide (x ∈ parsedAttachIds cs)),
        ∃ c ∈ parsedAttachIds cs, c ≤ p := by
      intro p hp
      exact ⟨p, by simpa using (List.mem_filter.1 hp).2, le_refl p⟩
    simp only [removalCandidates, diffIds_spec _ _ h1, diffIds_spec _ _ h2]
    have hA : (dbCirc.filter (fun x => decide (x ∈ parsedCircIds cs))).filter
        (fun x => decide (x ∉ parsedCircIds cs)) = [] := by
      refine List.filter_eq_nil_iff.2 ?_
      intro a hamem
      have := (List.mem_filter.1 hamem).2
      simpa using this
    have hB : (dbAtt.filter (fun x => decide (x ∈ parsedAttachIds cs))).filter
        (fun x => decide (x ∉ parsedAttachIds cs)) = [] := by
      refine List.filter_eq_nil_iff.2 ?_
      intro a hamem
      have := (List.mem_filter.1 hamem).2
      simpa using this
    rw [hA, hB]

/-- Witness for C1: circulars with ids 10 and 2 (attachments 100 and
20) against persisted ids 10, 7, 2 (attachments 100, 50, 20): exactly
7 and 50 are removal candidates, and the second run is empty. -/
theorem reconciler_diff_correct_witness :
    removalCandidates cs1 [10, 7, 2] [100, 50, 20] = some ([7], [50]) ∧
    removalCandidates cs1 [10, 2] [100, 20] = some ([], []) := by
  have h := reconciler_diff_correct cs1 [10, 7, 2] [100, 50, 20]
    (by decide) (by decide)
  constructor
  · rw [h.1]; rfl
  · simpa using h.2

/-- C1 counterexample: a persisted identifier (5) smaller than every
current identifier (10) makes the probe index out of range — the
run panics instead of returning the set difference. -/
theorem reconciler_diff_panics_on_low_persisted_id :
    removalCandidates [⟨10, "t", "c", ⟨2024, 1, 1⟩, ⟨2024, 1, 1⟩, []⟩]
        [5] [] = none ∧
    removalCandidates [⟨10, "t", "c", ⟨2024, 1, 1⟩, ⟨2024, 1, 1⟩, []⟩]
        [5] [] ≠ some ([5], []) := by
  decide

/-- C2 (code bug): with zero current identifiers and a nonempty
persisted set, `sort.Search` returns the slice length and the
unguarded `parsedCircId[idx]` read is out of range: the cleanup run
panics (process dies) instead of returning all of P as removal
candidates. -/
theorem reconciler_empty_current_panics :
    removalCandidates [] [7] [] = none ∧
    deleteRemovedCirculars [] ⟨false, false, fun _ => false, false⟩
        ⟨[(7, ⟨"t", "c", ⟨2024, 1, 1⟩, ⟨2024, 1, 1⟩, "ts"⟩)], []⟩ =
      DelOutcome.fatal := by
  constructor
  · rfl
  · rfl

/-! ### Sync Engine and main-loop theorems -/

/-- C3 (amended): the insert/upsert transaction is atomic — if any of
its statements (or the commit) fails, the store keeps exactly its
previous contents.  The delete transaction is NOT atomic on statement
failures: the code discards each DELETE's error, so a failing delete
is simply skipped and the remaining deletions commit (see the
counterexample). -/
theorem insert_tx_atomic (cs : List circular) (n : Nat) (now : String)
    (fails : Nat → Bool) (db : DBState)
    (h : (insertCirculars cs n now fails db).2 = true) :
    (insertCirculars cs n now fails db).1 = db := by
  revert h
  unfold insertCirculars
  cases insertLoop fails n now 0 cs 0 db with
  | none => intro _; rfl
  | some r =>
    obtain ⟨st, k⟩ := r
    intro h
    replace h : (if fails k = true then ((db, true) : DBState × Bool)
        else (st, false)).2 = true := h
    by_cases hc : fails k = true
    · show (if fails k = true then ((db, true) : DBState × Bool)
        else (st, false)).1 = db
      rw [if_pos hc]
    · rw [if_neg hc] at h
      exact absurd h (by simp)

/-- Witness for C3: a failing first statement leaves the store exactly
as it was and reports the error. -/
theorem insert_tx_atomic_witness :
    (insertCirculars [cw] 25 "T1" (fun _ => true) dbw).2 = true ∧
    (insertCirculars [cw] 25 "T1" (fun _ => true) dbw).1 = dbw :=
  ⟨by decide, insert_tx_atomic [cw] 25 "T1" (fun _ => true) dbw (by decide)⟩

/-- C3 counterexample: in the delete transaction, the first DELETE
(of circular 7) fails, yet the transaction still commits and the
second deletion (circular 5) is visible afterward — the batch is not
rolled back. -/
theorem delete_tx_commits_despite_statement_failure :
    (fun k : Nat => k == 0) 0 = true ∧
    deleteRemovedCirculars [⟨1, "t", "c", ⟨2024, 1, 1⟩, ⟨2024, 1, 1⟩, []⟩]
        ⟨false, false, fun k => k == 0, false⟩
        ⟨[(7, rowC7), (5, rowC5), (1, rowC1)], []⟩ =
      DelOutcome.ok ⟨[(7, rowC7), (1, rowC1)], []⟩ 2 0 := by
  constructor
  · rfl
  · rfl

/-- C4 (code bug): a failing id query during the cleanup phase hits
`log.Fatal`, terminating the process — the loop does not continue at
the next tick, contrary to the claim that startup misconfiguration is
the only way the process ends. -/
theorem cleanup_query_failure_kills_process :
    deleteRemovedCirculars [] ⟨true, false, fun _ => false, false⟩ ⟨[], []⟩ =
      DelOutcome.fatal ∧
    cycleStep false false [] (fun _ => false) "now" ⟨[], []⟩ true
      ⟨true, false, fun _ => false, false⟩ = CycleOutcome.exitProcess := by
  constructor
  · rfl
  · rfl

/-- C9: in every cleanup cycle whose diff step completes, the executed
delete-statement trace is exactly the attachment deletions followed by
the circular deletions: any circular delete comes strictly after every
attachment delete in the transaction. -/
theorem attachment_deletes_precede_circular_deletes
    (cs : List circular) (db : DBState) (tr : List DelStmt)
    (h : deleteTrace cs db = some tr) :
    ∃ idsCirc idsAtt,
      removalCandidates cs (dbCircIds db) (dbAttIds db) = some (idsCirc, idsAtt) ∧
      tr = idsAtt.map DelStmt.att ++ idsCirc.map DelStmt.circ ∧
      ∀ (i j a b : Nat), tr[i]? = some (DelStmt.circ a) →
        tr[j]? = some (DelStmt.att b) → j < i := by
  rw [deleteTrace] at h
  cases hrc : removalCandidates cs (dbCircIds db) (dbAttIds db) with
  | none => rw [hrc] at h; cases h
  | some pair =>
    obtain ⟨idsCirc, idsAtt⟩ := pair
    rw [hrc] at h
    have htr : tr = delStmtsOf idsAtt idsCirc := by
      injection h with h'
      exact h'.symm
    refine ⟨idsCirc, idsAtt, rfl, htr, ?_⟩
    intro i j a b hi hj
    subst htr
    rw [delStmtsOf] at hi hj
    have hige : (idsAtt.map DelStmt.att).length ≤ i := by
      by_contra hio
      push_neg at hio
      rw [List.getElem?_append_left hio, List.getElem?_map] at hi
      cases hx : idsAtt[i]? with
      | none => rw [hx] at hi; simp at hi
      | some v => rw [hx] at hi; simp at hi
    have hjlt : j < (idsAtt.map DelStmt.att).length := by
      by_contra hjo
      push_neg at hjo
      rw [List.getElem?_append_right hjo, List.getElem?_map] at hj
      cases hx : idsCirc[j - (idsAtt.map DelStmt.att).length]? with
      | none => rw [hx] at hj; simp at hj
      | some v => rw [hx] at hj; simp at hj
    omega

/-- Witness for C9: a cleanup removing attachment 20 and circular 5
executes the attachment delete first. -/
theorem attachment_deletes_precede_circular_deletes_witness :
    deleteTrace cs9 db9 = some [DelStmt.att 20, DelStmt.circ 5] ∧
    (∃ idsCirc idsAtt,
      removalCandidates cs9 (dbCircIds db9) (dbAttIds db9) =
        some (idsCirc, idsAtt) ∧
      [DelStmt.att 20, DelStmt.circ 5] =
        idsAtt.map DelStmt.att ++ idsCirc.map DelStmt.circ ∧
      ∀ (i j a b : Nat),
        [DelStmt.att 20, DelStmt.circ 5][i]? = some (DelStmt.circ a) →
        [DelStmt.att 20, DelStmt.circ 5][j]? = some (DelStmt.att b) → j < i) :=
  ⟨by decide,
   attachment_deletes_precede_circular_deletes cs9 db9
     [DelStmt.att 20, DelStmt.circ 5] (by decide)⟩

/-! ### Write-policy lemmas (C5) -/

/-- Helper: lookup across an appended table. -/
theorem lookup_append {α : Type} (t1 t2 : List (Nat × α)) (k : Nat) :
    (t1 ++ t2).lookup k =
      match t1.lookup k with
      | some v => some v
      | none => t2.lookup k := by
  induction t1 with
  | nil => rfl
  | cons e t ih =>
    obtain ⟨a, v⟩ := e
    cases hk : k == a with
    | true => simp [List.lookup, hk]
    | false => simp [List.lookup, hk, ih]

/-- Helper: updating a key rewrites exactly that key's row. -/
theorem lookup_updateKey_self {α : Type} (id : Nat) (f : α → α)
    (t : List (Nat × α)) :
    (updateKey id f t).lookup id = (t.lookup id).map f := by
  induction t with
  | nil => rfl
  | cons e t ih =>
    obtain ⟨a, v⟩ := e
    have hcons : updateKey id f ((a, v) :: t) =
        (if a = id then (a, f v) else (a, v)) :: updateKey id f t := rfl
    by_cases ha : a = id
    · subst ha
      rw [hcons, if_pos rfl]
      simp [List.lookup]
    · have hba : (id == a) = false := by
        simp [beq_eq_false_iff_ne]
        exact fun he => ha he.symm
      rw [hcons, if_neg ha]
      simp [List.lookup, hba, ih]

/-- Helper: updating a key leaves every other key's row alone. -/
theorem lookup_updateKey_ne {α : Type} (id k : Nat) (f : α → α)
    (t : List (Nat × α)) (hk : k ≠ id) :
    (updateKey id f t).lookup k = t.lookup k := by
  induction t with
  | nil => rfl
  | cons e t ih =>
    obtain ⟨a, v⟩ := e
    have hcons : updateKey id f ((a, v) :: t) =
        (if a = id then (a, f v) else (a, v)) :: updateKey id f t := rfl
    by_cases ha : a = id
    · subst ha
      have hba : (k == a) = false := by
        simp [beq_eq_false_iff_ne]
        exact hk
      rw [hcons, if_pos rfl]
      simp [List.lookup, hba, ih]
    · rw [hcons, if_neg ha]
      cases hba : k == a with
      | true => simp [List.lookup, hba]
      | false => simp [List.lookup, hba, ih]

/-- Helper: the circular statement stores exactly `circAfter` under
the circular's key. -/
theorem circStmt_lookup_self (u : Bool) (c : circular) (now : String)
    (t : List (Nat × CircRow)) :
    (circStmt u c now t).lookup c.Id =
      some (circAfter u c now (t.lookup c.Id)) := by
  unfold circStmt circAfter
  cases hl : t.lookup c.Id with
  | none =>
    rw [lookup_append, hl]
    simp [List.lookup]
  | some r =>
    cases u with
    | true => simpa using lookup_updateKey_self c.Id (circMutate c) t |>.trans (by rw [hl]; rfl)
    | false => exact hl

/-- Helper: the circular statement leaves other keys alone. -/
theorem circStmt_lookup_ne (u : Bool) (c : circular) (now : String)
    (t : List (Nat × CircRow)) (k : Nat) (hk : k ≠ c.Id) :
    (circStmt u c now t).lookup k = t.lookup k := by
  unfold circStmt
  cases hl : t.lookup c.Id with
  | none =>
    rw [lookup_append]
    have : ((([(c.Id, circRowOf c now)]) : List (Nat × CircRow)).lookup k) = none := by
      have hba : (k == c.Id) = false := by
        simp [beq_eq_false_iff_ne]
        exact hk
      simp [List.lookup, hba]
    rw [this]
    cases t.lookup k <;> rfl
  | some r =>
    cases u with
    | true => exact lookup_updateKey_ne c.Id k (circMutate c) t hk
    | false => rfl

/-- Helper: the attachment statement stores exactly `attAfter` under
the attachment's key. -/
theorem attStmt_lookup_self (u : Bool) (a : attachment) (cid : Nat)
    (t : List (Nat × AttRow)) :
    (attStmt u a cid t).lookup a.Id =
      some (attAfter u a cid (t.lookup a.Id)) := by
  unfold attStmt attAfter
  cases hl : t.lookup a.Id with
  | none =>
    rw [lookup_append, hl]
    simp [List.lookup]
  | some r =>
    cases u with
    | true => simpa using lookup_updateKey_self a.Id (attMutate a) t |>.trans (by rw [hl]; rfl)
    | false => exact hl

/-- Helper: the attachment statement leaves other keys alone. -/
theorem attStmt_lookup_ne (u : Bool) (a : attachment) (cid : Nat)
    (t : List (Nat × AttRow)) (k : Nat) (hk : k ≠ a.Id) :
    (attStmt u a cid t).lookup k = t.lookup k := by
  unfold attStmt
  cases hl : t.lookup a.Id with
  | none =>
    rw [lookup_append]
    have h2 : ((([(a.Id, attRowOf a cid)]) : List (Nat × AttRow)).lookup k) = none := by
      have hba : (k == a.Id) = false := by
        simp [beq_eq_false_iff_ne]
        exact hk
      simp [List.lookup, hba]
    rw [h2]
    cases t.lookup k <;> rfl
  | some r =>
    cases u with
    | true => exact lookup_updateKey_ne a.Id k (attMutate a) t hk
    | false => rfl

/-- Helper: one circular's attachment statements leave unrelated
attachment keys alone. -/
theorem attsApply_lookup_ne (u : Bool) (cid : Nat)
    (atts : List attachment) (t : List (Nat × AttRow)) (k : Nat)
    (h : ∀ a ∈ atts, a.Id ≠ k) :
    (attsApply u cid atts t).lookup k = t.lookup k := by
  induction atts generalizing t with
  | nil => rfl
  | cons a rest ih =>
    rw [attsApply]
    rw [ih _ (fun x hx => h x (List.mem_cons_of_mem a hx))]
    exact attStmt_lookup_ne u a cid t k
      (fun he => h a (List.mem_cons_self a rest) he.symm)

/-- Helper: with distinct attachment ids, every attachment of the
batch ends up stored as `attAfter` of its previous row. -/
theorem attsApply_lookup_self (u : Bool) (cid : Nat)
    (atts : List attachment) (t : List (Nat × AttRow)) (a : attachment)
    (ha : a ∈ atts) (hnodup : (atts.map (fun x => x.Id)).Nodup) :
    (attsApply u cid atts t).lookup a.Id =
      some (attAfter u a cid (t.lookup a.Id)) := by
  induction atts generalizing t with
  | nil => cases ha
  | cons b rest ih =>
    have hnd := List.nodup_cons.1 hnodup
    rw [attsApply]
    rcases List.mem_cons.1 ha with hab | har
    · subst hab
      rw [attsApply_lookup_ne u cid rest _ a.Id ?hne]
      · exact attStmt_lookup_self u a cid t
      case hne =>
        intro x hx he
        apply hnd.1
        have hmem : x.Id ∈ rest.map (fun y => y.Id) :=
          List.mem_map_of_mem _ hx
        rwa [he] at hmem
    · have hne : a.Id ≠ b.Id := by
        intro he
        apply hnd.1
        have hmem : a.Id ∈ rest.map (fun y => y.Id) :=
          List.mem_map_of_mem _ har
        rwa [he] at hmem
      rw [ih (attStmt u b cid t) har hnd.2]
      rw [attStmt_lookup_ne u b cid t a.Id hne]

/-- Helper: the failure-free write transaction leaves unrelated
circular keys alone. -/
theorem insertAllFrom_circ_ne (n : Nat) (now : String)
    (cs : List circular) (idx : Nat) (st : DBState) (k : Nat)
    (h : ∀ c ∈ cs, c.Id ≠ k) :
    (insertAllFrom n now idx cs st).circ.lookup k = st.circ.lookup k := by
  induction cs generalizing idx st with
  | nil => rfl
  | cons c rest ih =>
    rw [insertAllFrom]
    rw [ih (idx + 1) _ (fun x hx => h x (List.mem_cons_of_mem c hx))]
    exact circStmt_lookup_ne _ c now st.circ k
      (fun he => h c (List.mem_cons_self c rest) he.symm)

/-- Helper: the failure-free write transaction leaves unrelated
attachment keys alone. -/
theorem insertAllFrom_att_ne (n : Nat) (now : String)
    (cs : List circular) (idx : Nat) (st : DBState) (k : Nat)
    (h : ∀ c ∈ cs, ∀ a ∈ c.Attachments, a.Id ≠ k) :
    (insertAllFrom n now idx cs st).att.lookup k = st.att.lookup k := by
  induction cs generalizing idx st with
  | nil => rfl
  | cons c rest ih =>
    rw [insertAllFrom]
    rw [ih (idx + 1) _ (fun x hx => h x (List.mem_cons_of_mem c hx))]
    exact attsApply_lookup_ne _ c.Id c.Attachments st.att k
      (h c (List.mem_cons_self c rest))

/-- Helper: the attachment loop with no failures is its pure
skeleton, advancing the statement counter by one per attachment. -/
theorem attLoop_nofail (u : Bool) (cid : Nat) (atts : List attachment) :
    ∀ (k : Nat) (st : DBState),
      attLoop (fun _ => false) u cid atts k st =
        some ({ st with att := attsApply u cid atts st.att }, k + atts.length) := by
  induction atts with
  | nil => intro k st; rfl
  | cons a rest ih =>
    intro k st
    rw [show attLoop (fun _ => false) u cid (a :: rest) k st =
        attLoop (fun _ => false) u cid rest (k + 1)
          { st with att := attStmt u a cid st.att } from rfl]
    rw [ih (k + 1) _]
    rw [show k + 1 + rest.length = k + (rest.length + 1) from by omega]
    rfl

/-- Helper: the write loop with no failures is the pure skeleton
`insertAllFrom` (with some final counter value). -/
theorem insertLoop_nofail (n : Nat) (now : String) (cs : List circular) :
    ∀ (idx k : Nat) (st : DBState),
      ∃ k2, insertLoop (fun _ => false) n now idx cs k st =
        some (insertAllFrom n now idx cs st, k2) := by
  induction cs with
  | nil => intro idx k st; exact ⟨k, rfl⟩
  | cons c rest ih =>
    intro idx k st
    rw [show insertLoop (fun _ => false) n now idx (c :: rest) k st =
        (attLoop (fun _ => false) (decide (idx < n)) c.Id c.Attachments (k + 1)
          { st with circ := circStmt (decide (idx < n)) c now st.circ }).bind
          (fun r => insertLoop (fun _ => false) n now (idx + 1) rest r.2 r.1)
      from rfl]
    rw [attLoop_nofail]
    rw [Option.some_bind]
    obtain ⟨k2, hk2⟩ := ih (idx + 1) (k + 1 + c.Attachments.length)
      { { st with circ := circStmt (decide (idx < n)) c now st.circ } with
        att := attsApply (decide (idx < n)) c.Id c.Attachments st.att }
    exact ⟨k2, hk2⟩

/-- Helper: with no failures, `insertCirculars` commits the pure
skeleton and returns no error. -/
theorem insertCirculars_nofail (cs : List circular) (n : Nat) (now : String)
    (db : DBState) :
    insertCirculars cs n now (fun _ => false) db =
      (insertAllFrom n now 0 cs db, false) := by
  obtain ⟨k2, hk2⟩ := insertLoop_nofail n now cs 0 0 db
  unfold insertCirculars
  rw [hk2]
  rfl

/-- Helper: final row of every circular and attachment of the batch,
under distinct identifiers: circular `idx + i` of the batch is stored
as `circAfter` of its old row with the upsert flag `idx + i < n`, and
likewise each of its attachments. -/
theorem insertAllFrom_spec (n : Nat) (now : String) :
    ∀ (cs : List circular) (idx : Nat) (st : DBState),
      ((cs.map (fun c => c.Id)).Nodup) →
      ((cs.flatMap (fun c => c.Attachments.map (fun a => a.Id))).Nodup) →
      ∀ (i : Nat) (hi : i < cs.length),
        ((insertAllFrom n now idx cs st).circ.lookup cs[i].Id =
          some (circAfter (decide (idx + i < n)) cs[i] now
            (st.circ.lookup cs[i].Id))) ∧
        ∀ a ∈ cs[i].Attachments,
          (insertAllFrom n now idx cs st).att.lookup a.Id =
            some (attAfter (decide (idx + i < n)) a cs[i].Id
              (st.att.lookup a.Id)) := by
  intro cs
  induction cs with
  | nil =>
    intro idx st _ _ i hi
    exact absurd hi (by simp)
  | cons c rest ih =>
    intro idx st hnc hna i hi
    have hndc : (∀ x ∈ rest, ¬x.Id = c.Id) ∧
        (rest.map (fun y => y.Id)).Nodup := by
      simpa using hnc
    have hsplit :
        (c.Attachments.map (fun a => a.Id)).Nodup ∧
        ((rest.flatMap (fun x => x.Attachments.map (fun a => a.Id))).Nodup) ∧
        ∀ y ∈ c.Attachments.map (fun a => a.Id),
          y ∉ rest.flatMap (fun x => x.Attachments.map (fun a => a.Id)) := by
      have h1 : ((c.Attachments.map (fun a => a.Id)) ++
          (rest.flatMap (fun x => x.Attachments.map (fun a => a.Id)))).Nodup := by
        simpa using hna
      have h2 := List.nodup_append.1 h1
      exact ⟨h2.1, h2.2.1, fun y hy hz => h2.2.2 hy hz⟩
    have hst2 : insertAllFrom n now idx (c :: rest) st =
        insertAllFrom n now (idx + 1) rest
          ⟨circStmt (decide (idx < n)) c now st.circ,
           attsApply (decide (idx < n)) c.Id c.Attachments st.att⟩ := rfl
    cases i with
    | zero =>
      constructor
      · have hne : ∀ x ∈ rest, x.Id ≠ c.Id := hndc.1
        rw [show ((c :: rest)[0]) = c from rfl, hst2]
        rw [insertAllFrom_circ_ne n now rest (idx + 1) _ c.Id hne]
        rw [show (⟨circStmt (decide (idx < n)) c now st.circ,
            attsApply (decide (idx < n)) c.Id c.Attachments st.att⟩ :
            DBState).circ = circStmt (decide (idx < n)) c now st.circ from rfl]
        rw [circStmt_lookup_self]
        rfl
      · intro a ha
        have hane : ∀ x ∈ rest, ∀ b ∈ x.Attachments, b.Id ≠ a.Id := by
          intro x hx b hb he
          apply hsplit.2.2 a.Id
            (List.mem_map_of_mem _ (by simpa using ha))
          have hbm : b.Id ∈ rest.flatMap
              (fun y => y.Attachments.map (fun z => z.Id)) := by
            refine List.mem_flatMap.2 ⟨x, hx, List.mem_map_of_mem _ hb⟩
          rwa [he] at hbm
        rw [hst2]
        rw [insertAllFrom_att_ne n now rest (idx + 1) _ a.Id hane]
        rw [show (⟨circStmt (decide (idx < n)) c now st.circ,
            attsApply (decide (idx < n)) c.Id c.Attachments st.att⟩ :
            DBState).att =
            attsApply (decide (idx < n)) c.Id c.Attachments st.att from rfl]
        rw [attsApply_lookup_self (decide (idx < n)) c.Id c.Attachments
          st.att a (by simpa using ha) hsplit.1]
        rfl
    | succ j =>
      have hj : j < rest.length := Nat.lt_of_succ_lt_succ hi
      have ihj := ih (idx + 1)
        ⟨circStmt (decide (idx < n)) c now st.circ,
         attsApply (decide (idx < n)) c.Id c.Attachments st.att⟩
        hndc.2 hsplit.2.1 j hj
      have hgj : ((c :: rest)[j + 1]) = rest[j] := by
        simp
      constructor
      · have hne : rest[j].Id ≠ c.Id :=
          hndc.1 rest[j] (List.getElem_mem hj)
        rw [hgj, hst2, ihj.1]
        rw [show (⟨circStmt (decide (idx < n)) c now st.circ,
            attsApply (decide (idx < n)) c.Id c.Attachments st.att⟩ :
            DBState).circ = circStmt (decide (idx < n)) c now st.circ from rfl]
        rw [circStmt_lookup_ne (decide (idx < n)) c now st.circ rest[j].Id hne]
        rw [show idx + 1 + j = idx + (j + 1) from by omega]
      · intro a ha
        rw [hgj] at ha ⊢
        have hane : ∀ b ∈ c.Attachments, b.Id ≠ a.Id := by
          intro b hb he
          apply hsplit.2.2 b.Id (List.mem_map_of_mem _ hb)
          refine List.mem_flatMap.2 ⟨rest[j], List.getElem_mem hj, ?_⟩
          rw [he]
          exact List.mem_map_of_mem _ ha
        rw [hst2, ihj.2 a ha]
        rw [show (⟨circStmt (decide (idx < n)) c now st.circ,
            attsApply (decide (idx < n)) c.Id c.Attachments st.att⟩ :
            DBState).att =
            attsApply (decide (idx < n)) c.Id c.Attachments st.att from rfl]
        rw [attsApply_lookup_ne (decide (idx < n)) c.Id c.Attachments
          st.att a.Id hane]
        rw [show idx + 1 + j = idx + (j + 1) from by omega]

/-- C5: with a failure-free transaction and the `numToUpdate = 25`
that `main` passes, the first 25 circulars in parse order (indices
below 25) are upserted — inserted when absent, and on key conflict
exactly the mutable columns `titolo`, `categoria`, `data`,
`valida_fino` are rewritten while `aggiunta_il` is kept, and their
attachments' `titolo` is rewritten while `id_circolare` is kept —
whereas every circular and attachment from index 25 on is inserted
only if absent and left untouched on conflict (`circAfter` /
`attAfter` with the upsert flag `i < 25`). -/
theorem sync_upsert_window (cs : List circular) (now : String) (db : DBState)
    (hcirc : (parsedCircIds cs).Nodup)
    (hatt : (parsedAttachIds cs).Nodup) :
    (insertCirculars cs mainNumToUpdate now (fun _ => false) db).2 = false ∧
    ∀ (i : Nat) (hi : i < cs.length),
      ((insertCirculars cs mainNumToUpdate now (fun _ => false) db).1.circ.lookup
          cs[i].Id =
        some (circAfter (decide (i < mainNumToUpdate)) cs[i] now
          (db.circ.lookup cs[i].Id))) ∧
      ∀ a ∈ cs[i].Attachments,
        (insertCirculars cs mainNumToUpdate now (fun _ => false) db).1.att.lookup
            a.Id =
          some (attAfter (decide (i < mainNumToUpdate)) a cs[i].Id
            (db.att.lookup a.Id)) := by
  rw [insertCirculars_nofail]
  refine ⟨rfl, ?_⟩
  intro i hi
  have h := insertAllFrom_spec mainNumToUpdate now cs 0 db hcirc hatt i hi
  simpa [Nat.zero_add] using h

/-- Witness for C5: one circular (id 1, attachment 10) over a store
already holding both rows: the circular's mutable columns and the
attachment title are rewritten, while `aggiunta_il` and
`id_circolare` keep their old values. -/
theorem sync_upsert_window_witness :
    (insertCirculars [cw] mainNumToUpdate "T1" (fun _ => false) dbw).1.circ.lookup 1 =
      some ⟨"new title", "new cat", ⟨2024, 9, 7⟩, ⟨2024, 12, 31⟩, "old-ts"⟩ ∧
    (insertCirculars [cw] mainNumToUpdate "T1" (fun _ => false) dbw).1.att.lookup 10 =
      some ⟨"att title", 1⟩ := by
  have h := sync_upsert_window [cw] "T1" dbw (by decide) (by decide)
  have h1 := (h.2 0 (by decide)).1
  have h2 := (h.2 0 (by decide)).2 ⟨10, "att title"⟩ (by decide)
  constructor
  · simpa using h1
  · simpa using h2

end Spaggiari
